import Mathlib

/-!
# helloworld_uds: the greeter servers over a Unix-domain socket

A shallow embedding of `examples/cpp/helloworld_uds/greeter_async_server.cc`
and `examples/cpp/helloworld_uds/greeter_server.cc`.

* `std::string` values that are used as file names are lists of bytes
  (`Bytes`); the C string seen by a system call is the part before the first
  NUL byte (`c_str`).
* Every system call returns an `Int` that the caller of the model supplies
  (`SetupEnv`, `AcceptStep`); the calls made are recorded in a trace.
* A thrown `std::runtime_error` is `Except.error` carrying `what()`.
* The heap of `CallData` objects is an association list from addresses
  (the tags) to objects; `new` takes its address from an allocator
  `alloc`, a function of the live addresses.
-/

namespace HelloworldUds

/-! ## Setup of the listening socket -/

/-- A `std::string` used as a file name: its bytes. -/
abbrev Bytes := List Nat

/-- The C string `s.c_str()` as a callee reads it: the bytes before the first NUL. -/
def c_str (s : Bytes) : Bytes := s.takeWhile (fun b => b ≠ 0)

/-- The C string left in a zeroed buffer of `size` bytes by
`snprintf(buf, size, "%s", src)`: at most `size - 1` bytes of `src`. -/
def snprintf_s (size : Nat) (src : Bytes) : Bytes := src.take (size - 1)

def S_IRUSR : Nat := 0o400
def S_IWUSR : Nat := 0o200
def S_IRGRP : Nat := 0o040
def S_IWGRP : Nat := 0o020

/-- The system calls of `create_uds`, with the arguments that matter. -/
inductive Syscall where
  | unlink (path : Bytes)
  | socket
  | bind (fd : Int) (sun_path : Bytes)
  | listen (fd : Int) (backlog : Int)
  | chown (path : Bytes)
  | chmod (path : Bytes) (mode : Nat)
  deriving DecidableEq, Repr

/-- The return values of the five checked system calls of `create_uds`. -/
structure SetupEnv where
  socket : Int
  bind : Int
  listen : Int
  chown : Int
  chmod : Int
  deriving DecidableEq, Repr

/-- The function `create_uds(uds_path)`; `sun_path_size` is `sizeof(addr_info.sun_path)`.
The result is the trace of system calls and either the descriptor returned
or the message of the exception thrown. -/
def create_uds (sun_path_size : Nat) (env : SetupEnv) (uds_path : Bytes) :
    List Syscall × Except String Int :=
  -- unlink the uds if it exists
  let t := [Syscall.unlink (c_str uds_path)]
  let uds_fd := env.socket
  let t := t ++ [Syscall.socket]
  if uds_fd < 0 then (t, .error "error creating uds")
  else
    let sun_path := snprintf_s sun_path_size (c_str uds_path)
    -- bind on uds
    let t := t ++ [Syscall.bind uds_fd sun_path]
    if env.bind < 0 then (t, .error "error binding uds")
    else
      -- listen on uds
      let t := t ++ [Syscall.listen uds_fd 1]
      if env.listen < 0 then (t, .error "error listening on uds")
      else
        -- set uds ownership for current user
        let t := t ++ [Syscall.chown (c_str uds_path)]
        if env.chown ≠ 0 then (t, .error "error setting uds ownership")
        else
          -- set uds permission as read-write for current user and group
          let t := t ++ [Syscall.chmod (c_str uds_path) (S_IRUSR ||| S_IWUSR ||| S_IRGRP ||| S_IWGRP)]
          if env.chmod ≠ 0 then (t, .error "error setting uds permissions")
          else (t, .ok uds_fd)

/-! ## The accept loop -/

/-- The return values of the system calls of one iteration of the accept loop. -/
structure AcceptStep where
  /-- The value of `accept(uds_fd, ...)`. -/
  client_fd : Int
  /-- The value of `fcntl(fd, F_GETFL, 0)`. -/
  getfl : Int
  /-- The value of `fcntl(fd, F_SETFL, flags | O_NONBLOCK)`. -/
  setfl : Int
  deriving DecidableEq, Repr

/-- The function `set_nonblock_on_client_fd(fd)`. -/
def set_nonblock_on_client_fd (s : AcceptStep) : Except String Unit :=
  let flags := s.getfl
  if flags < 0 then .error "error getting flags for uds"
  else if s.setfl < 0 then .error "error setting non-blocking for uds"
  else .ok ()

/-- How a run ends that does not return. -/
inductive Failure where
  /-- A `std::runtime_error` was thrown and nothing catches it. -/
  | exception (what : String)
  /-- A `GPR_ASSERT` failed. -/
  | assertion (expr : String)
  /-- A member function was called through a pointer to no live object. -/
  | dangling (tag : Nat)
  /-- The model ran out of recursion depth. -/
  | depth
  deriving DecidableEq, Repr

/-- How far a `while (true)` loop got on the inputs given to it. -/
inductive LoopEnd where
  /-- Every input was consumed; the loop is blocked waiting for the next. -/
  | waiting
  | failed (f : Failure)
  deriving DecidableEq, Repr

/-- What the accept loop has done so far. -/
structure Acceptor where
  /-- The number of calls of `accept`, one per iteration. -/
  accepts : Nat
  /-- The descriptors given to `grpc::AddInsecureChannelFromFd`, oldest first. -/
  channels : List Int
  deriving DecidableEq, Repr

/-- The loop `while (true)` of `Run` and of `RunServer`, on the outcomes of the
iterations that the environment provides. -/
def acceptLoop : List AcceptStep → Acceptor → Acceptor × LoopEnd
  | [], a => (a, .waiting)
  | s :: rest, a =>
    let client_fd := s.client_fd
    let a := { a with accepts := a.accepts + 1 }
    if client_fd < 0 then (a, .failed (.exception "error accepting on uds"))
    else
      match set_nonblock_on_client_fd s with
      | .error what => (a, .failed (.exception what))
      | .ok () =>
        acceptLoop rest { a with channels := a.channels ++ [client_fd] }

/-- The path `"/tmp/uds.sock"`. -/
def uds_path : Bytes := "/tmp/uds.sock".toList.map Char.toNat

/-- The result of `RunServer`. -/
structure ServerRun where
  syscalls : List Syscall
  acceptor : Acceptor
  ending : LoopEnd
  deriving DecidableEq, Repr

/-- The function `RunServer()` of the synchronous server. -/
def RunServer (sun_path_size : Nat) (env : SetupEnv) (conns : List AcceptStep) : ServerRun :=
  match create_uds sun_path_size env uds_path with
  | (t, .error what) =>
    { syscalls := t, acceptor := ⟨0, []⟩, ending := .failed (.exception what) }
  | (t, .ok _) =>
    let r := acceptLoop conns ⟨0, []⟩
    { syscalls := t, acceptor := r.1, ending := r.2 }

/-! ## The greeter service -/

structure HelloRequest where
  name : String
  deriving DecidableEq, Repr

structure HelloReply where
  message : String
  deriving DecidableEq, Repr

/-- The type `grpc::Status`: `OK`, or an error with its code. -/
inductive Status where
  | OK
  | error (code : Nat)
  deriving DecidableEq, Repr

/-- The method `GreeterServiceImpl::SayHello(context, request, reply)` of the
synchronous server: the reply after the call and the status returned. -/
def GreeterServiceImpl.SayHello (request : HelloRequest) (reply : HelloReply) :
    HelloReply × Status :=
  let pre := "Hello "
  ({ reply with message := pre ++ request.name }, Status.OK)

/-! ## The asynchronous server: `CallData` -/

inductive CallStatus where
  | CREATE
  | PROCESS
  | FINISH
  deriving DecidableEq, Repr

/-- The data members of `CallData` that `Proceed` reads or writes. -/
structure CallData where
  request_ : HelloRequest
  reply_ : HelloReply
  status_ : CallStatus
  deriving DecidableEq, Repr

/-- An asynchronous operation handed to the gRPC runtime, with its tag. -/
inductive AsyncOp where
  /-- The call `service_->RequestSayHello(&ctx_, &request_, &responder_, cq_, cq_, tag)`. -/
  | RequestSayHello (tag : Nat)
  /-- The call `responder_.Finish(reply, status, tag)`. -/
  | Finish (reply : HelloReply) (status : Status) (tag : Nat)
  deriving DecidableEq, Repr

def AsyncOp.tag : AsyncOp → Nat
  | .RequestSayHello t => t
  | .Finish _ _ t => t

def AsyncOp.isRequest : AsyncOp → Bool
  | .RequestSayHello _ => true
  | .Finish _ _ _ => false

/-- The heap of `CallData` objects: address and object, newest first. -/
abbrev Heap := List (Nat × CallData)

/-- The object at address `t`, if one is live there. -/
def find : Heap → Nat → Option CallData
  | [], _ => none
  | (a, cd) :: h, t => if a = t then some cd else find h t

/-- An assignment to data members of the object at address `t`. -/
def modify (h : Heap) (t : Nat) (f : CallData → CallData) : Heap :=
  h.map (fun e => if e.1 = t then (e.1, f e.2) else e)

/-- The statement `delete` on the object at address `t`. -/
def free (h : Heap) (t : Nat) : Heap :=
  h.filter (fun e => decide (e.1 ≠ t))

/-- The addresses of the live objects. -/
def addrs (h : Heap) : List Nat := h.map Prod.fst

/-- The state that `Proceed` and `HandleRpcs` act on. The fields `created`,
`retired` and `completed` are ghost state: they count the runs of the
constructor and of `delete this`, and log the operations whose completion
the queue has delivered. -/
structure World where
  heap : Heap
  /-- The operations handed to the runtime whose completion is not yet delivered. -/
  pending : List AsyncOp
  completed : List AsyncOp
  created : Nat
  retired : Nat
  deriving DecidableEq, Repr

/-- The expression `new CallData(service_, cq_)`: the object is allocated with
`status_(CREATE)` and the constructor body calls `Proceed()` on it. The
member function is passed in as `proceed`. -/
def CallData.new (proceed : Nat → World → Except Failure World)
    (alloc : List Nat → Nat) (w : World) : Except Failure World :=
  let this := alloc (addrs w.heap)
  let w := { w with
    heap := (this, { request_ := ⟨""⟩, reply_ := ⟨""⟩, status_ := .CREATE }) :: w.heap
    created := w.created + 1 }
  -- Invoke the serving logic right away.
  proceed this w

/-- The member function `CallData::Proceed()` called through the pointer `this`.
The first argument bounds the depth of nested calls (`Proceed` runs the
constructor, which runs `Proceed`). -/
def Proceed (alloc : List Nat → Nat) : Nat → Nat → World → Except Failure World
  | 0, _, _ => .error .depth
  | fuel + 1, this, w =>
    match find w.heap this with
    | none => .error (.dangling this)
    | some cd =>
      if cd.status_ = .CREATE then
        -- Make this instance progress to the PROCESS state.
        let w := { w with heap := modify w.heap this (fun c => { c with status_ := .PROCESS }) }
        .ok { w with pending := w.pending ++ [.RequestSayHello this] }
      else if cd.status_ = .PROCESS then
        -- Spawn a new CallData instance to serve new clients.
        match CallData.new (Proceed alloc fuel) alloc w with
        | .error f => .error f
        | .ok w =>
          -- The actual processing.
          let pre := "Hello "
          let reply_ : HelloReply := { cd.reply_ with message := pre ++ cd.request_.name }
          let w := { w with heap := modify w.heap this (fun c => { c with reply_ := reply_ }) }
          let w := { w with heap := modify w.heap this (fun c => { c with status_ := .FINISH }) }
          .ok { w with pending := w.pending ++ [.Finish reply_ Status.OK this] }
      else
        if cd.status_ = .FINISH then
          -- Once in the FINISH state, deallocate ourselves (CallData).
          .ok { w with heap := free w.heap this, retired := w.retired + 1 }
        else .error (.assertion "status_ == FINISH")

/-- The nesting depth that `HandleRpcs` needs: `Proceed`, the constructor, `Proceed`. -/
def depth : Nat := 2

/-! ## The completion queue and the dispatch loop -/

/-- What a call `cq_->Next(&tag, &ok)` gives. -/
inductive CqEvent where
  /-- The call returns false: the queue is shutting down. -/
  | shutdown
  /-- The call returns true with `tag` and `ok`; `request` is the message the
  runtime has decoded for a request that arrived. -/
  | completion (tag : Nat) (ok : Bool) (request : HelloRequest)
  deriving DecidableEq, Repr

/-- The first pending operation with tag `t`, and the others. -/
def takeOp : List AsyncOp → Nat → Option (AsyncOp × List AsyncOp)
  | [], _ => none
  | op :: ops, t =>
    if op.tag = t then some (op, ops)
    else (takeOp ops t).map (fun r => (r.1, op :: r.2))

/-- Modelled from the spec: the Server Runtime side of a completion, which is
code of gRPC outside these two files. "Completion Event: (tag, success).
Produced by the Server Runtime whenever an asynchronous operation the
Invocation subscribed to finishes. Ephemeral; consumed exactly once": the
operation with that tag stops being pending, and when it is the awaited
request that arrived, the request is in `request_`. -/
def cqNext (w : World) : CqEvent → World
  | .shutdown => w
  | .completion tag ok request =>
    match takeOp w.pending tag with
    | none => w
    | some (op, ops) =>
      let w := { w with pending := ops, completed := w.completed ++ [op] }
      if op.isRequest && ok then
        { w with heap := modify w.heap tag (fun c => { c with request_ := request }) }
      else w

/-- One iteration of the loop of `HandleRpcs`: the state after it and the
failure that ended it, if any. -/
def HandleRpcs.iteration (alloc : List Nat → Nat) (ev : CqEvent) (w : World) :
    World × Option Failure :=
  let w := cqNext w ev
  match ev with
  | .shutdown => (w, some (.assertion "cq_->Next(&tag, &ok)"))
  | .completion tag ok _ =>
    if ok = false then (w, some (.assertion "ok"))
    else
      match Proceed alloc depth tag w with
      | .error f => (w, some f)
      | .ok w => (w, none)

/-- The loop `while (true)` of `HandleRpcs` on the events the queue delivers. -/
def HandleRpcs.loop (alloc : List Nat → Nat) : List CqEvent → World → World × LoopEnd
  | [], w => (w, .waiting)
  | ev :: rest, w =>
    match HandleRpcs.iteration alloc ev w with
    | (w, some f) => (w, .failed f)
    | (w, none) => HandleRpcs.loop alloc rest w

/-- The state before `HandleRpcs`: no `CallData` and no operation. -/
def World.empty : World := ⟨[], [], [], 0, 0⟩

/-- The function `HandleRpcs()`. -/
def HandleRpcs (alloc : List Nat → Nat) (evs : List CqEvent) (w : World) : World × LoopEnd :=
  -- Spawn a new CallData instance to serve new clients.
  match CallData.new (Proceed alloc depth) alloc w with
  | .error f => (w, .failed f)
  | .ok w => HandleRpcs.loop alloc evs w

/-- Modelled from the spec: what the Server Runtime may post in state `w`, "a
signal that an asynchronous operation (awaiting a request, sending a reply)
has finished": a successful completion whose tag is that of a pending
operation. -/
def posts (w : World) : CqEvent → Bool
  | .shutdown => false
  | .completion tag ok _ => ok && w.pending.any (fun op => decide (op.tag = tag))

/-- Every event of the list is one the runtime may post at the moment the loop
takes it from the queue. -/
def runtimeTrace (alloc : List Nat → Nat) : List CqEvent → World → Bool
  | [], _ => true
  | ev :: rest, w =>
    posts w ev &&
      match HandleRpcs.iteration alloc ev w with
      | (_, some _) => true
      | (w, none) => runtimeTrace alloc rest w

/-- An allocator never returns the address of a live object. -/
def Fresh (alloc : List Nat → Nat) : Prop := ∀ live, alloc live ∉ live

/-- An allocator that reuses the lowest free address. -/
def lowestFree (live : List Nat) : Nat :=
  ((List.range (live.length + 1)).find? (fun a => decide (a ∉ live))).getD (live.length + 1)

/-- The result of `ServerImpl::Run`. -/
structure AsyncRun where
  syscalls : List Syscall
  /-- The exception that leaves `Run`, if any. -/
  thrown : Option String
  /-- The detached thread with the accept loop, once started. -/
  acceptor : Option (Acceptor × LoopEnd)
  /-- The call of `HandleRpcs`, once made. -/
  dispatch : Option (World × LoopEnd)
  deriving DecidableEq, Repr

/-- The function `ServerImpl::Run()`. The accept loop runs in its own thread
and shares no state of this model with `HandleRpcs`; each is run on its own
inputs. -/
def ServerImpl.Run (alloc : List Nat → Nat) (sun_path_size : Nat) (env : SetupEnv)
    (conns : List AcceptStep) (evs : List CqEvent) : AsyncRun :=
  match create_uds sun_path_size env uds_path with
  | (t, .error what) =>
    { syscalls := t, thrown := some what, acceptor := none, dispatch := none }
  | (t, .ok _) =>
    { syscalls := t, thrown := none
      acceptor := some (acceptLoop conns ⟨0, []⟩)
      dispatch := some (HandleRpcs alloc evs World.empty) }

/-- The state in which `HandleRpcs` enters its loop, coming from the empty state. -/
def HandleRpcs.entry (alloc : List Nat → Nat) : World := (HandleRpcs alloc [] World.empty).1

/-! ## Notions used in the statements -/

/-- The values POSIX allows the five calls to return: a descriptor or `-1` for
`socket`, `0` or `-1` for the others. -/
def SetupEnv.posix (env : SetupEnv) : Prop :=
  (0 ≤ env.socket ∨ env.socket = -1) ∧ (env.bind = 0 ∨ env.bind = -1) ∧
  (env.listen = 0 ∨ env.listen = -1) ∧ (env.chown = 0 ∨ env.chown = -1) ∧
  (env.chmod = 0 ∨ env.chmod = -1)

/-- All five calls succeed in the sense of POSIX. -/
def SetupEnv.allSucceed (env : SetupEnv) : Prop :=
  0 ≤ env.socket ∧ env.bind = 0 ∧ env.listen = 0 ∧ env.chown = 0 ∧ env.chmod = 0

/-- The five steps in the order of the claim (socket, bind, listen, chown,
chmod): whether the step succeeded, and the message of its setup error. -/
def setupSteps (env : SetupEnv) : List (Bool × String) :=
  [(decide (0 ≤ env.socket), "error creating uds"),
   (decide (env.bind = 0), "error binding uds"),
   (decide (env.listen = 0), "error listening on uds"),
   (decide (env.chown = 0), "error setting uds ownership"),
   (decide (env.chmod = 0), "error setting uds permissions")]

/-- The message of the first step that failed, if one did. -/
def firstFailure (env : SetupEnv) : Option String :=
  ((setupSteps env).find? (fun s => !s.1)).map Prod.snd

/-- An iteration of the accept loop in which `accept` and both `fcntl` calls succeed. -/
def AcceptStep.succeeds (s : AcceptStep) : Prop :=
  0 ≤ s.client_fd ∧ 0 ≤ s.getfl ∧ 0 ≤ s.setfl

/-- The paths given to `unlink` in a trace. -/
def unlinked (t : List Syscall) : List Bytes :=
  t.filterMap (fun c => match c with | .unlink p => some p | _ => none)

/-- The addresses given to `bind` in a trace. -/
def bound (t : List Syscall) : List Bytes :=
  t.filterMap (fun c => match c with | .bind _ p => some p | _ => none)

/-- The paths given to `chown` in a trace. -/
def chowned (t : List Syscall) : List Bytes :=
  t.filterMap (fun c => match c with | .chown p => some p | _ => none)

/-- The paths given to `chmod` in a trace. -/
def chmoded (t : List Syscall) : List Bytes :=
  t.filterMap (fun c => match c with | .chmod p _ => some p | _ => none)

/-- How far an object is in its life: the position of `status_` in
`CREATE, PROCESS, FINISH`, and 3 once it is deleted. -/
def stage : Option CallData → Nat
  | some cd => match cd.status_ with
    | .CREATE => 0
    | .PROCESS => 1
    | .FINISH => 2
  | none => 3

/-- The values of `status_` seen before each of up to `n` successive calls of
`Proceed` on the object at `t`, until it is deleted. -/
def statusTrace (alloc : List Nat → Nat) : Nat → Nat → World → List CallStatus
  | 0, _, _ => []
  | n + 1, t, w =>
    match find w.heap t with
    | none => []
    | some cd =>
      cd.status_ ::
        match Proceed alloc depth t w with
        | .ok w => statusTrace alloc n t w
        | .error _ => []

/-- The live objects other than `t` whose `status_` is `s`. -/
def others (w : World) (t : Nat) (s : CallStatus) : Heap :=
  w.heap.filter (fun e => decide (e.1 ≠ t) && decide (e.2.status_ = s))

/-- The operations with tag `t` in a list. -/
def opsOf (ops : List AsyncOp) (t : Nat) : List AsyncOp :=
  ops.filter (fun op => decide (op.tag = t))

/-- The object a constructor leaves at its address: empty messages, and the
`status_` that the call of `Proceed` in the constructor body has set. -/
def CallData.fresh : CallData := { request_ := ⟨""⟩, reply_ := ⟨""⟩, status_ := .PROCESS }

/-- The state after `new CallData(service_, cq_)` in state `w`, written out. -/
def World.spawned (alloc : List Nat → Nat) (w : World) : World :=
  { w with
    heap := (alloc (addrs w.heap), CallData.fresh) ::
      modify w.heap (alloc (addrs w.heap)) (fun c => { c with status_ := .PROCESS })
    pending := w.pending ++ [.RequestSayHello (alloc (addrs w.heap))]
    created := w.created + 1 }

/-- The reply that `Proceed` builds for the request in `cd`. -/
def CallData.answer (cd : CallData) : HelloReply :=
  { cd.reply_ with message := "Hello " ++ cd.request_.name }

/-- The invariant of the dispatch loop between two events: the live objects
have distinct addresses; the pending operations are, tag for tag, those of
the live objects; an object waits for a request in PROCESS and for its reply
to be sent in FINISH; one object waits for a request; and the counts of
objects created and retired follow the delivered completions. -/
structure Inv (w : World) : Prop where
  nodup : (addrs w.heap).Nodup
  perm : (w.pending.map AsyncOp.tag).Perm (addrs w.heap)
  status : ∀ op ∈ w.pending, ∃ cd, find w.heap op.tag = some cd ∧
    cd.status_ = if op.isRequest then CallStatus.PROCESS else CallStatus.FINISH
  one : (w.pending.filter AsyncOp.isRequest).length = 1
  live : w.created = w.retired + w.pending.length
  arrived : w.created = 1 + (w.completed.filter AsyncOp.isRequest).length
  sent : w.retired = (w.completed.filter (fun op => !op.isRequest)).length

/-! ## Setup and accept loop: theorems -/

theorem create_uds_result (sz : Nat) (env : SetupEnv) (path : Bytes) :
    (create_uds sz env path).2 =
      if env.socket < 0 then .error "error creating uds"
      else if env.bind < 0 then .error "error binding uds"
      else if env.listen < 0 then .error "error listening on uds"
      else if env.chown ≠ 0 then .error "error setting uds ownership"
      else if env.chmod ≠ 0 then .error "error setting uds permissions"
      else .ok env.socket := by
  unfold create_uds
  simp only []
  split_ifs <;> rfl

theorem create_uds_ok_of_allSucceed (sz : Nat) (env : SetupEnv) (path : Bytes)
    (h : env.allSucceed) : (create_uds sz env path).2 = .ok env.socket := by
  obtain ⟨h1, h2, h3, h4, h5⟩ := h
  rw [create_uds_result]
  simp [h2, h3, h4, h5, not_lt.mpr h1]

theorem firstFailure_eq (sz : Nat) (env : SetupEnv) (path : Bytes) (h : env.posix) :
    (create_uds sz env path).2 =
      match firstFailure env with
      | some what => .error what
      | none => .ok env.socket := by
  obtain ⟨h1, h2, h3, h4, h5⟩ := h
  rw [create_uds_result]
  rcases h1 with h1 | h1 <;> rcases h2 with h2 | h2 <;> rcases h3 with h3 | h3 <;>
    rcases h4 with h4 | h4 <;> rcases h5 with h5 | h5 <;>
    simp [firstFailure, setupSteps, h1, h2, h3, h4, h5, not_lt.mpr]

theorem firstFailure_none_iff (env : SetupEnv) :
    firstFailure env = none ↔ env.allSucceed := by
  unfold firstFailure setupSteps SetupEnv.allSucceed
  by_cases h1 : 0 ≤ env.socket <;> by_cases h2 : env.bind = 0 <;>
    by_cases h3 : env.listen = 0 <;> by_cases h4 : env.chown = 0 <;>
    by_cases h5 : env.chmod = 0 <;> simp [h1, h2, h3, h4, h5]

theorem acceptLoop_append (pre rest : List AcceptStep) (a : Acceptor)
    (hpre : ∀ s ∈ pre, s.succeeds) :
    acceptLoop (pre ++ rest) a =
      acceptLoop rest ⟨a.accepts + pre.length, a.channels ++ pre.map AcceptStep.client_fd⟩ := by
  induction pre generalizing a with
  | nil => simp
  | cons s pre ih =>
    have hs : s.succeeds := hpre s (List.mem_cons_self _ _)
    obtain ⟨h1, h2, h3⟩ := hs
    have ih2 := ih { accepts := a.accepts + 1, channels := a.channels ++ [s.client_fd] }
      (fun x hx => hpre x (List.mem_cons_of_mem _ hx))
    simp only [List.cons_append, acceptLoop, set_nonblock_on_client_fd, not_lt.mpr h1,
      not_lt.mpr h2, not_lt.mpr h3, if_false]
    exact ih2.trans (by simp [Nat.add_assoc, Nat.add_comm 1])

/-- C3. When the first `N` iterations of the accept loop succeed (`accept`
and the two `fcntl` calls), the loop has handed exactly those `N` descriptors
to `AddInsecureChannelFromFd`, one call per accepted descriptor, in the order
of acceptance (so none twice, unless `accept` itself returned it twice); a
failed `accept` next ends the loop with the exception
`error accepting on uds` and nothing is registered after it, whatever
outcomes follow. `Run` and `RunServer` run this loop once setup succeeded. -/
theorem acceptLoop_registers_each_once (pre rest : List AcceptStep) (bad : AcceptStep)
    (hpre : ∀ s ∈ pre, s.succeeds) (hbad : bad.client_fd < 0) :
    acceptLoop pre ⟨0, []⟩ = (⟨pre.length, pre.map AcceptStep.client_fd⟩, .waiting) ∧
    acceptLoop (pre ++ bad :: rest) ⟨0, []⟩ =
      (⟨pre.length + 1, pre.map AcceptStep.client_fd⟩,
        .failed (.exception "error accepting on uds")) ∧
    (acceptLoop (pre ++ bad :: rest) ⟨0, []⟩).1.channels.length = pre.length ∧
    (∀ fd, (acceptLoop (pre ++ bad :: rest) ⟨0, []⟩).1.channels.count fd =
      (pre.map AcceptStep.client_fd).count fd) ∧
    ((pre.map AcceptStep.client_fd).Nodup →
      (acceptLoop (pre ++ bad :: rest) ⟨0, []⟩).1.channels.Nodup) ∧
    (∀ (alloc : List Nat → Nat) (sz : Nat) (env : SetupEnv) (evs : List CqEvent),
      env.allSucceed →
      (ServerImpl.Run alloc sz env (pre ++ bad :: rest) evs).acceptor =
        some (acceptLoop (pre ++ bad :: rest) ⟨0, []⟩) ∧
      (RunServer sz env (pre ++ bad :: rest)).acceptor =
        (acceptLoop (pre ++ bad :: rest) ⟨0, []⟩).1 ∧
      (RunServer sz env (pre ++ bad :: rest)).ending =
        .failed (.exception "error accepting on uds")) := by
  have h1 : acceptLoop pre ⟨0, []⟩ =
      (⟨pre.length, pre.map AcceptStep.client_fd⟩, .waiting) := by
    have := acceptLoop_append pre [] ⟨0, []⟩ hpre
    simpa [acceptLoop] using this
  have h2 : acceptLoop (pre ++ bad :: rest) ⟨0, []⟩ =
      (⟨pre.length + 1, pre.map AcceptStep.client_fd⟩,
        .failed (.exception "error accepting on uds")) := by
    rw [acceptLoop_append pre (bad :: rest) ⟨0, []⟩ hpre]
    simp [acceptLoop, hbad]
  refine ⟨h1, h2, ?_, ?_, ?_, ?_⟩
  · rw [h2]; simp
  · intro fd; rw [h2]
  · intro hnd; rw [h2]; exact hnd
  · intro alloc sz env evs hall
    have hc := create_uds_ok_of_allSucceed sz env uds_path hall
    have hr : create_uds sz env uds_path = ((create_uds sz env uds_path).1, .ok env.socket) := by
      rw [← hc]
    refine ⟨?_, ?_, ?_⟩
    · unfold ServerImpl.Run; rw [hr]
    · unfold RunServer; rw [hr]
    · unfold RunServer; rw [hr]; simp only []; rw [h2]

theorem acceptLoop_registers_each_once_witness :
    acceptLoop [⟨5, 2, 0⟩, ⟨6, 2, 0⟩] ⟨0, []⟩ = (⟨2, [5, 6]⟩, .waiting) ∧
    acceptLoop [⟨5, 2, 0⟩, ⟨6, 2, 0⟩, ⟨-1, 0, 0⟩, ⟨7, 2, 0⟩] ⟨0, []⟩ =
      (⟨3, [5, 6]⟩, .failed (.exception "error accepting on uds")) := by
  have h := acceptLoop_registers_each_once [⟨5, 2, 0⟩, ⟨6, 2, 0⟩] [⟨7, 2, 0⟩] ⟨-1, 0, 0⟩
    (by intro s hs; simp at hs; rcases hs with rfl | rfl <;> simp [AcceptStep.succeeds])
    (by decide)
  exact ⟨h.1, h.2.1⟩

/-- C4. When the five setup calls return what POSIX allows, `create_uds`
returns the descriptor of `socket` exactly when all five succeed; otherwise it
throws the setup error of the first step that failed (in the order socket,
bind, listen, chown, chmod), and then `Run` starts neither the accept loop
nor `HandleRpcs` and `RunServer` makes no call of `accept` and registers no
channel. -/
theorem create_uds_returns_iff_all_succeed (alloc : List Nat → Nat) (sz : Nat)
    (env : SetupEnv) (path : Bytes) (conns : List AcceptStep) (evs : List CqEvent)
    (h : env.posix) :
    (∀ fd, (create_uds sz env path).2 = .ok fd ↔ (env.allSucceed ∧ fd = env.socket)) ∧
    (¬ env.allSucceed → ∃ what, firstFailure env = some what ∧
      (create_uds sz env path).2 = .error what ∧
      (ServerImpl.Run alloc sz env conns evs).thrown = some what ∧
      (ServerImpl.Run alloc sz env conns evs).acceptor = none ∧
      (ServerImpl.Run alloc sz env conns evs).dispatch = none ∧
      (RunServer sz env conns).acceptor = ⟨0, []⟩ ∧
      (RunServer sz env conns).ending = .failed (.exception what)) := by
  constructor
  · intro fd
    rw [firstFailure_eq sz env path h]
    cases hff : firstFailure env with
    | none =>
      have hall := (firstFailure_none_iff env).mp hff
      simp only [Except.ok.injEq]
      constructor
      · intro e; exact ⟨hall, e.symm⟩
      · intro e; exact e.2.symm
    | some what =>
      have hnall : ¬ env.allSucceed := by
        intro hall
        rw [(firstFailure_none_iff env).mpr hall] at hff
        cases hff
      simp [hnall]
  · intro hnall
    cases hff : firstFailure env with
    | none => exact absurd ((firstFailure_none_iff env).mp hff) hnall
    | some what =>
      have hc : ∀ p, (create_uds sz env p).2 = .error what := by
        intro p; rw [firstFailure_eq sz env p h, hff]
      have hr : create_uds sz env uds_path = ((create_uds sz env uds_path).1, .error what) := by
        rw [← hc uds_path]
      refine ⟨what, rfl, hc path, ?_, ?_, ?_, ?_, ?_⟩
      · unfold ServerImpl.Run; rw [hr]
      · unfold ServerImpl.Run; rw [hr]
      · unfold ServerImpl.Run; rw [hr]
      · unfold RunServer; rw [hr]
      · unfold RunServer; rw [hr]

theorem create_uds_returns_iff_all_succeed_witness :
    (∀ fd, (create_uds 108 ⟨3, 0, 0, -1, 0⟩ uds_path).2 = .ok fd ↔
      (SetupEnv.allSucceed ⟨3, 0, 0, -1, 0⟩ ∧ fd = 3)) ∧
    (¬ SetupEnv.allSucceed ⟨3, 0, 0, -1, 0⟩ → ∃ what,
      firstFailure ⟨3, 0, 0, -1, 0⟩ = some what ∧
      (create_uds 108 ⟨3, 0, 0, -1, 0⟩ uds_path).2 = .error what ∧
      (ServerImpl.Run lowestFree 108 ⟨3, 0, 0, -1, 0⟩ [⟨5, 2, 0⟩] []).thrown = some what ∧
      (ServerImpl.Run lowestFree 108 ⟨3, 0, 0, -1, 0⟩ [⟨5, 2, 0⟩] []).acceptor = none ∧
      (ServerImpl.Run lowestFree 108 ⟨3, 0, 0, -1, 0⟩ [⟨5, 2, 0⟩] []).dispatch = none ∧
      (RunServer 108 ⟨3, 0, 0, -1, 0⟩ [⟨5, 2, 0⟩]).acceptor = ⟨0, []⟩ ∧
      (RunServer 108 ⟨3, 0, 0, -1, 0⟩ [⟨5, 2, 0⟩]).ending = .failed (.exception what)) :=
  create_uds_returns_iff_all_succeed lowestFree 108 ⟨3, 0, 0, -1, 0⟩ uds_path [⟨5, 2, 0⟩] []
    (by unfold SetupEnv.posix; decide)

theorem c_str_eq_self (path : Bytes) (h : 0 ∉ path) : c_str path = path := by
  unfold c_str
  rw [List.takeWhile_eq_self_iff]
  intro b hb
  have : b ≠ 0 := fun e => h (e ▸ hb)
  simpa using this

/-- C9, as the code has it. For every path whose C string is shorter than
`sizeof(sun_path)`, the address written into `sun_path` and given to `bind` is
the C string of the path, the same that `unlink` gets beforehand and `chown`
and `chmod` get afterwards (and it is the path itself when the path has no NUL
byte). For every path, whatever its length, the address given to `bind` is the
first `sizeof(sun_path) - 1` bytes of that C string. -/
theorem create_uds_binds_short_path (sz : Nat) (env : SetupEnv) (path : Bytes)
    (hlen : (c_str path).length < sz) :
    unlinked (create_uds sz env path).1 = [c_str path] ∧
    (∀ p ∈ bound (create_uds sz env path).1, p = c_str path) ∧
    (∀ p ∈ chowned (create_uds sz env path).1, p = c_str path) ∧
    (∀ p ∈ chmoded (create_uds sz env path).1, p = c_str path) ∧
    (env.allSucceed → (create_uds sz env path).1 =
      [.unlink (c_str path), .socket, .bind env.socket (c_str path), .listen env.socket 1,
       .chown (c_str path), .chmod (c_str path) 0o660]) ∧
    (0 ∉ path → c_str path = path) ∧
    (∀ (sz2 : Nat) (env2 : SetupEnv) (path2 : Bytes), ∀ p ∈ bound (create_uds sz2 env2 path2).1,
      p = (c_str path2).take (sz2 - 1)) := by
  have htake : snprintf_s sz (c_str path) = c_str path := by
    unfold snprintf_s
    exact List.take_of_length_le (by omega)
  refine ⟨?_, ?_, ?_, ?_, ?_, c_str_eq_self path, ?_⟩
  · unfold create_uds; simp only [htake]
    split_ifs <;> simp [unlinked]
  · unfold create_uds; simp only [htake]
    split_ifs <;> simp [bound]
  · unfold create_uds; simp only [htake]
    split_ifs <;> simp [chowned]
  · unfold create_uds; simp only [htake]
    split_ifs <;> simp [chmoded]
  · rintro ⟨h1, h2, h3, h4, h5⟩
    unfold create_uds; simp only [htake]
    simp [h2, h3, h4, h5, not_lt.mpr h1, S_IRUSR, S_IWUSR, S_IRGRP, S_IWGRP]
  · intro sz2 env2 path2
    unfold create_uds snprintf_s
    simp only []
    split_ifs <;> simp [bound]

theorem create_uds_binds_short_path_witness :
    unlinked (create_uds 108 ⟨3, 0, 0, 0, 0⟩ uds_path).1 = [uds_path] ∧
    bound (create_uds 108 ⟨3, 0, 0, 0, 0⟩ uds_path).1 = [uds_path] ∧
    chowned (create_uds 108 ⟨3, 0, 0, 0, 0⟩ uds_path).1 = [uds_path] ∧
    chmoded (create_uds 108 ⟨3, 0, 0, 0, 0⟩ uds_path).1 = [uds_path] := by
  have h := create_uds_binds_short_path 108 ⟨3, 0, 0, 0, 0⟩ uds_path (by decide)
  have hp : c_str uds_path = uds_path := by decide
  have ht := h.2.2.2.2.1 (by unfold SetupEnv.allSucceed; decide)
  rw [ht, hp]
  decide

/-- C9 as stated fails: with `sizeof(sun_path) = 108`, a path of 108 bytes `a`
is unlinked, chowned and chmoded in full, and the socket is bound to its first
107 bytes, which is another path. -/
theorem create_uds_truncates_long_path :
    unlinked (create_uds 108 ⟨3, 0, 0, 0, 0⟩ (List.replicate 108 97)).1 =
      [List.replicate 108 97] ∧
    chowned (create_uds 108 ⟨3, 0, 0, 0, 0⟩ (List.replicate 108 97)).1 =
      [List.replicate 108 97] ∧
    chmoded (create_uds 108 ⟨3, 0, 0, 0, 0⟩ (List.replicate 108 97)).1 =
      [List.replicate 108 97] ∧
    bound (create_uds 108 ⟨3, 0, 0, 0, 0⟩ (List.replicate 108 97)).1 =
      [List.replicate 107 97] ∧
    List.replicate 107 97 ≠ List.replicate 108 97 := by
  decide

/-! ## The heap -/

theorem modify_cons (a : Nat) (cd : CallData) (h : Heap) (t : Nat) (f : CallData → CallData) :
    modify ((a, cd) :: h) t f = (a, if a = t then f cd else cd) :: modify h t f := by
  unfold modify
  by_cases hat : a = t <;> simp [hat]

theorem free_cons (a : Nat) (cd : CallData) (h : Heap) (t : Nat) :
    free ((a, cd) :: h) t = if a = t then free h t else (a, cd) :: free h t := by
  unfold free
  by_cases hat : a = t <;> simp [hat, List.filter_cons]

theorem find_cons (a : Nat) (cd : CallData) (h : Heap) (t : Nat) :
    find ((a, cd) :: h) t = if a = t then some cd else find h t := rfl

theorem addrs_cons (a : Nat) (cd : CallData) (h : Heap) :
    addrs ((a, cd) :: h) = a :: addrs h := rfl

theorem find_modify (h : Heap) (t u : Nat) (f : CallData → CallData) :
    find (modify h t f) u = if u = t then (find h u).map f else find h u := by
  induction h with
  | nil => simp [modify, find]
  | cons e h ih =>
    obtain ⟨a, cd⟩ := e
    rw [modify_cons, find_cons, find_cons, ih]
    by_cases hau : a = u
    · by_cases hut : u = t
      · simp [hau, hut]
      · simp [hau, hut]
    · simp [hau]

theorem addrs_modify (h : Heap) (t : Nat) (f : CallData → CallData) :
    addrs (modify h t f) = addrs h := by
  induction h with
  | nil => rfl
  | cons e h ih =>
    obtain ⟨a, cd⟩ := e
    rw [modify_cons]
    unfold addrs at ih ⊢
    simp [ih]

theorem modify_of_not_mem (h : Heap) (t : Nat) (f : CallData → CallData)
    (ht : t ∉ addrs h) : modify h t f = h := by
  induction h with
  | nil => rfl
  | cons e h ih =>
    obtain ⟨a, cd⟩ := e
    rw [modify_cons]
    unfold addrs at ih ht
    simp only [List.map_cons, List.mem_cons, not_or] at ht
    have hne : ¬ a = t := fun x => ht.1 x.symm
    simp [hne, ih ht.2]

theorem find_free (h : Heap) (t u : Nat) :
    find (free h t) u = if u = t then none else find h u := by
  induction h with
  | nil => simp [free, find]
  | cons e h ih =>
    obtain ⟨a, cd⟩ := e
    rw [free_cons, find_cons]
    by_cases hat : a = t
    · rw [if_pos hat, ih]
      by_cases hut : u = t
      · simp [hut]
      · have hau : ¬ a = u := fun x => hut (x ▸ hat)
        simp [hut, hau]
    · rw [if_neg hat, find_cons, ih]
      by_cases hau : a = u
      · have hut : ¬ u = t := fun x => hat (hau.trans x)
        simp [hau, hut]
      · simp [hau]

theorem addrs_free (h : Heap) (t : Nat) :
    addrs (free h t) = (addrs h).filter (fun a => decide (a ≠ t)) := by
  induction h with
  | nil => rfl
  | cons e h ih =>
    obtain ⟨a, cd⟩ := e
    rw [free_cons]
    unfold addrs at ih ⊢
    by_cases hat : a = t
    · simp [hat, ih]
    · simp [hat, ih, List.filter_cons]

theorem find_eq_none_iff (h : Heap) (t : Nat) : find h t = none ↔ t ∉ addrs h := by
  induction h with
  | nil => simp [find, addrs]
  | cons e h ih =>
    obtain ⟨a, cd⟩ := e
    unfold addrs at ih ⊢
    by_cases hat : a = t
    · simp [find, hat]
    · have hta : ¬ t = a := fun x => hat x.symm
      simp [find, hat, hta, ih]

theorem mem_addrs_of_find (h : Heap) (t : Nat) (cd : CallData) (hf : find h t = some cd) :
    t ∈ addrs h := by
  by_contra hn
  rw [(find_eq_none_iff h t).mpr hn] at hf
  cases hf

theorem find_of_mem_addrs (h : Heap) (t : Nat) (ht : t ∈ addrs h) :
    ∃ cd, find h t = some cd := by
  cases hf : find h t with
  | none => exact absurd ht ((find_eq_none_iff h t).mp hf)
  | some cd => exact ⟨cd, rfl⟩

/-! ## `Proceed`, branch by branch -/

theorem Proceed_CREATE (alloc : List Nat → Nat) (n t : Nat) (w : World) (cd : CallData)
    (hf : find w.heap t = some cd) (hs : cd.status_ = .CREATE) :
    Proceed alloc (n + 1) t w = .ok { w with
      heap := modify w.heap t (fun c => { c with status_ := .PROCESS })
      pending := w.pending ++ [.RequestSayHello t] } := by
  simp [Proceed, hf, hs]

theorem CallData_new_eq (alloc : List Nat → Nat) (n : Nat) (w : World) :
    CallData.new (Proceed alloc (n + 1)) alloc w = .ok (w.spawned alloc) := by
  unfold CallData.new
  simp only []
  rw [Proceed_CREATE alloc n _ _ ⟨⟨""⟩, ⟨""⟩, .CREATE⟩ (by simp [find]) rfl]
  simp [World.spawned, modify, CallData.fresh]

theorem Proceed_PROCESS (alloc : List Nat → Nat) (n t : Nat) (w : World) (cd : CallData)
    (hf : find w.heap t = some cd) (hs : cd.status_ = .PROCESS) :
    Proceed alloc (n + 2) t w = .ok { w.spawned alloc with
      heap := modify (modify (w.spawned alloc).heap t (fun c => { c with reply_ := cd.answer }))
        t (fun c => { c with status_ := .FINISH })
      pending := (w.spawned alloc).pending ++ [.Finish cd.answer Status.OK t] } := by
  rw [Proceed]
  simp only [hf, hs]
  rw [CallData_new_eq]
  simp [CallData.answer]

theorem Proceed_FINISH (alloc : List Nat → Nat) (n t : Nat) (w : World) (cd : CallData)
    (hf : find w.heap t = some cd) (hs : cd.status_ = .FINISH) :
    Proceed alloc (n + 1) t w =
      .ok { w with heap := free w.heap t, retired := w.retired + 1 } := by
  simp [Proceed, hf, hs]

theorem Proceed_dangling (alloc : List Nat → Nat) (n t : Nat) (w : World)
    (hf : find w.heap t = none) :
    Proceed alloc (n + 1) t w = .error (.dangling t) := by
  simp [Proceed, hf]

/-- Depth 2 is enough: more depth changes nothing. -/
theorem Proceed_depth (alloc : List Nat → Nat) (n t : Nat) (w : World) :
    Proceed alloc (n + 2) t w = Proceed alloc depth t w := by
  cases hf : find w.heap t with
  | none => rw [Proceed_dangling alloc _ t w hf, depth, Proceed_dangling alloc _ t w hf]
  | some cd =>
    cases hs : cd.status_ with
    | CREATE => rw [Proceed_CREATE alloc _ t w cd hf hs, depth, Proceed_CREATE alloc _ t w cd hf hs]
    | PROCESS =>
      rw [Proceed_PROCESS alloc n t w cd hf hs, depth, Proceed_PROCESS alloc 0 t w cd hf hs]
    | FINISH => rw [Proceed_FINISH alloc _ t w cd hf hs, depth, Proceed_FINISH alloc _ t w cd hf hs]

theorem spawned_heap (alloc : List Nat → Nat) (hfresh : Fresh alloc) (w : World) :
    (w.spawned alloc).heap = (alloc (addrs w.heap), CallData.fresh) :: w.heap := by
  unfold World.spawned
  simp only []
  rw [modify_of_not_mem _ _ _ (hfresh (addrs w.heap))]

/-- The heap after the PROCESS branch, seen through `find`. -/
theorem find_after_PROCESS (alloc : List Nat → Nat) (hfresh : Fresh alloc) (t : Nat)
    (w : World) (cd : CallData) (hf : find w.heap t = some cd) (r : HelloReply) (u : Nat) :
    find (modify (modify (w.spawned alloc).heap t (fun c => { c with reply_ := r }))
        t (fun c => { c with status_ := .FINISH })) u =
      if u = t then some { cd with reply_ := r, status_ := .FINISH }
      else if u = alloc (addrs w.heap) then some CallData.fresh
      else find w.heap u := by
  have hp : alloc (addrs w.heap) ≠ t := by
    intro e
    exact hfresh (addrs w.heap) (e ▸ mem_addrs_of_find w.heap t cd hf)
  rw [find_modify, find_modify, spawned_heap alloc hfresh, find_cons]
  by_cases hut : u = t
  · subst hut
    simp [hp, hf]
  · by_cases hup : u = alloc (addrs w.heap)
    · simp [hup, hp]
    · have : ¬ alloc (addrs w.heap) = u := fun e => hup e.symm
      simp [hut, hup, this]

theorem statusTrace_none (alloc : List Nat → Nat) (k t : Nat) (w : World)
    (hf : find w.heap t = none) : statusTrace alloc k t w = [] := by
  cases k with
  | zero => rfl
  | succ k => simp [statusTrace, hf]

theorem statusTrace_FINISH (alloc : List Nat → Nat) (k t : Nat) (w : World) (cd : CallData)
    (hf : find w.heap t = some cd) (hs : cd.status_ = .FINISH) :
    statusTrace alloc k t w = List.take k [.FINISH] := by
  cases k with
  | zero => rfl
  | succ k =>
    rw [statusTrace]
    simp only [hf, depth]
    rw [Proceed_FINISH alloc 1 t w cd hf hs]
    simp only []
    rw [statusTrace_none alloc k t _ (by simp [find_free]), hs]
    simp

theorem statusTrace_PROCESS (alloc : List Nat → Nat) (hfresh : Fresh alloc) (k t : Nat)
    (w : World) (cd : CallData) (hf : find w.heap t = some cd) (hs : cd.status_ = .PROCESS) :
    statusTrace alloc k t w = List.take k [.PROCESS, .FINISH] := by
  cases k with
  | zero => rfl
  | succ k =>
    rw [statusTrace]
    simp only [hf, depth]
    rw [Proceed_PROCESS alloc 0 t w cd hf hs]
    simp only []
    rw [statusTrace_FINISH alloc k t _ { cd with reply_ := cd.answer, status_ := .FINISH }
      (by simp only []; rw [find_after_PROCESS alloc hfresh t w cd hf]; simp) rfl, hs]
    simp

theorem statusTrace_CREATE (alloc : List Nat → Nat) (hfresh : Fresh alloc) (k t : Nat)
    (w : World) (cd : CallData) (hf : find w.heap t = some cd) (hs : cd.status_ = .CREATE) :
    statusTrace alloc k t w = List.take k [.CREATE, .PROCESS, .FINISH] := by
  cases k with
  | zero => rfl
  | succ k =>
    rw [statusTrace]
    simp only [hf, depth]
    rw [Proceed_CREATE alloc 1 t w cd hf hs]
    simp only []
    rw [statusTrace_PROCESS alloc hfresh k t _ { cd with status_ := .PROCESS }
      (by simp [find_modify, hf]) rfl, hs]
    simp

theorem lowestFree_fresh : Fresh lowestFree := by
  intro live hmem
  unfold lowestFree at hmem
  cases hfind : (List.range (live.length + 1)).find? (fun a => decide (a ∉ live)) with
  | some a =>
    rw [hfind] at hmem
    have := List.find?_some hfind
    simp only [Option.getD_some] at hmem
    simp at this
    exact this hmem
  | none =>
    rw [List.find?_eq_none] at hfind
    have hsub : ∀ a ∈ List.range (live.length + 1), a ∈ live := by
      intro a ha
      have := hfind a ha
      simpa using this
    have hle : (List.range (live.length + 1)).length ≤ live.length :=
      ((List.nodup_range _).subperm hsub).length_le
    simp at hle

/-! ## The call state machine: theorems -/

/-- C1. Every call of `Proceed` on a live `CallData` returns and moves the
object exactly one step along CREATE, PROCESS, FINISH, deleted: never zero
steps, never backwards, never into a state it has left; it leaves every
other live object as it was. So the values of `status_` seen before
successive calls on one object, from the CREATE of its construction on, are
a prefix of CREATE, PROCESS, FINISH. -/
theorem Proceed_advances_status (alloc : List Nat → Nat) (hfresh : Fresh alloc) (n t : Nat)
    (w : World) (cd : CallData) (hf : find w.heap t = some cd) :
    (∃ w2, Proceed alloc (n + 2) t w = .ok w2 ∧
      stage (find w2.heap t) = stage (find w.heap t) + 1 ∧
      (∀ u, u ≠ t → u ∈ addrs w.heap → find w2.heap u = find w.heap u)) ∧
    (cd.status_ = .CREATE → ∀ k,
      statusTrace alloc k t w <+: [.CREATE, .PROCESS, .FINISH]) ∧
    (∀ k, (CallStatus.CREATE ::
        statusTrace alloc k (alloc (addrs w.heap)) (w.spawned alloc)) <+:
      [.CREATE, .PROCESS, .FINISH]) := by
  refine ⟨?_, ?_, ?_⟩
  · cases hs : cd.status_ with
    | CREATE =>
      refine ⟨_, Proceed_CREATE alloc (n + 1) t w cd hf hs, ?_, ?_⟩
      · simp [find_modify, hf, stage, hs]
      · intro u hut _
        simp [find_modify, hut]
    | PROCESS =>
      refine ⟨_, Proceed_PROCESS alloc n t w cd hf hs, ?_, ?_⟩
      · simp only []
        rw [find_after_PROCESS alloc hfresh t w cd hf]
        simp [hf, stage, hs]
      · intro u hut hu
        simp only []
        rw [find_after_PROCESS alloc hfresh t w cd hf]
        have hup : u ≠ alloc (addrs w.heap) := fun e => hfresh (addrs w.heap) (e ▸ hu)
        simp [hut, hup]
    | FINISH =>
      refine ⟨_, Proceed_FINISH alloc (n + 1) t w cd hf hs, ?_, ?_⟩
      · simp [find_free, hf, stage, hs]
      · intro u hut _
        simp [find_free, hut]
  · intro hs k
    rw [statusTrace_CREATE alloc hfresh k t w cd hf hs]
    exact List.take_prefix _ _
  · intro k
    rw [statusTrace_PROCESS alloc hfresh k _ _ CallData.fresh
      (by rw [spawned_heap alloc hfresh]; simp [find_cons]) rfl]
    have : (CallStatus.CREATE :: List.take k [CallStatus.PROCESS, CallStatus.FINISH]) =
        List.take (k + 1) [.CREATE, .PROCESS, .FINISH] := by simp
    rw [this]
    exact List.take_prefix _ _

theorem Proceed_advances_status_witness :
    (∃ w2, Proceed lowestFree 2 0 ⟨[(0, ⟨⟨"world"⟩, ⟨""⟩, .PROCESS⟩)], [], [], 1, 0⟩ = .ok w2 ∧
      stage (find w2.heap 0) = stage (some ⟨⟨"world"⟩, ⟨""⟩, .PROCESS⟩) + 1) ∧
    statusTrace lowestFree 5 0 ⟨[(0, ⟨⟨""⟩, ⟨""⟩, .CREATE⟩)], [], [], 1, 0⟩ =
      [.CREATE, .PROCESS, .FINISH] := by
  have h := Proceed_advances_status lowestFree lowestFree_fresh 0 0
    ⟨[(0, ⟨⟨"world"⟩, ⟨""⟩, .PROCESS⟩)], [], [], 1, 0⟩ ⟨⟨"world"⟩, ⟨""⟩, .PROCESS⟩ rfl
  obtain ⟨w2, h1, h2, _⟩ := h.1
  exact ⟨⟨w2, h1, h2⟩, by decide⟩

/-- C2. In the PROCESS branch of `Proceed` the reply stored in `reply_` and
handed to `Finish` (with status OK) is `"Hello "` followed by the name of the
request; `GreeterServiceImpl::SayHello` sets the same message and returns OK.
The name `world` gives `Hello world` and the empty name gives `Hello `. -/
theorem reply_is_Hello_name (alloc : List Nat → Nat) (hfresh : Fresh alloc) (n t : Nat)
    (w : World) (cd : CallData) (hf : find w.heap t = some cd)
    (hs : cd.status_ = .PROCESS) :
    (∃ w2 cd2, Proceed alloc (n + 2) t w = .ok w2 ∧ find w2.heap t = some cd2 ∧
      cd2.reply_ = ⟨"Hello " ++ cd.request_.name⟩ ∧
      AsyncOp.Finish ⟨"Hello " ++ cd.request_.name⟩ Status.OK t ∈ w2.pending ∧
      ∀ reply, (cd2.reply_, Status.OK) = GreeterServiceImpl.SayHello cd.request_ reply) ∧
    (∀ s reply, GreeterServiceImpl.SayHello ⟨s⟩ reply = (⟨"Hello " ++ s⟩, Status.OK)) ∧
    (∀ reply, GreeterServiceImpl.SayHello ⟨"world"⟩ reply = (⟨"Hello world"⟩, Status.OK)) ∧
    (∀ reply, GreeterServiceImpl.SayHello ⟨""⟩ reply = (⟨"Hello "⟩, Status.OK)) := by
  refine ⟨⟨_, { cd with reply_ := cd.answer, status_ := .FINISH },
    Proceed_PROCESS alloc n t w cd hf hs, ?_, ?_, ?_, ?_⟩, ?_, ?_, ?_⟩
  · simp only []
    rw [find_after_PROCESS alloc hfresh t w cd hf]
    simp
  · rfl
  · simp [CallData.answer]
  · intro reply; rfl
  · intro s reply; rfl
  · intro reply; rfl
  · intro reply; rfl

theorem reply_is_Hello_name_witness :
    ∃ w2 cd2, Proceed lowestFree 2 0 ⟨[(0, ⟨⟨"world"⟩, ⟨""⟩, .PROCESS⟩)], [], [], 1, 0⟩ = .ok w2 ∧
      find w2.heap 0 = some cd2 ∧ cd2.reply_ = ⟨"Hello world"⟩ ∧
      AsyncOp.Finish ⟨"Hello world"⟩ Status.OK 0 ∈ w2.pending := by
  have h := reply_is_Hello_name lowestFree lowestFree_fresh 0 0
    ⟨[(0, ⟨⟨"world"⟩, ⟨""⟩, .PROCESS⟩)], [], [], 1, 0⟩ ⟨⟨"world"⟩, ⟨""⟩, .PROCESS⟩ rfl rfl
  obtain ⟨w2, cd2, h1, h2, h3, h4, _⟩ := h.1
  exact ⟨w2, cd2, h1, h2, h3, h4⟩

/-- `Proceed` never fails an assertion: in the last branch `status_` is FINISH. -/
theorem Proceed_no_assertion (alloc : List Nat → Nat) (m t : Nat) (w : World) (e : String) :
    Proceed alloc m t w ≠ .error (.assertion e) := by
  cases m with
  | zero => simp [Proceed]
  | succ m =>
    cases hf : find w.heap t with
    | none => rw [Proceed_dangling alloc m t w hf]; simp
    | some cd =>
      cases hs : cd.status_ with
      | CREATE => rw [Proceed_CREATE alloc m t w cd hf hs]; simp
      | FINISH => rw [Proceed_FINISH alloc m t w cd hf hs]; simp
      | PROCESS =>
        cases m with
        | zero => simp [Proceed, hf, hs, CallData.new]
        | succ m => rw [Proceed_PROCESS alloc m t w cd hf hs]; simp

/-- C6, as the code has it. A call of `Proceed` on a `CallData` whose
`status_` is FINISH passes the assertion `status_ == FINISH` and returns,
having deleted the object; no call of `Proceed` ends in an assertion failure.
After that the tag points to no live object, and a further call through it is
a call through a dangling pointer, which no assertion guards. -/
theorem Proceed_FINISH_retires (alloc : List Nat → Nat) (n t : Nat) (w : World)
    (cd : CallData) (hf : find w.heap t = some cd) (hs : cd.status_ = .FINISH) :
    Proceed alloc (n + 1) t w =
      .ok { w with heap := free w.heap t, retired := w.retired + 1 } ∧
    find (free w.heap t) t = none ∧
    (∀ m, Proceed alloc (m + 1) t { w with heap := free w.heap t, retired := w.retired + 1 } =
      .error (.dangling t)) ∧
    (∀ m u v e, Proceed alloc m u v ≠ .error (.assertion e)) := by
  refine ⟨Proceed_FINISH alloc n t w cd hf hs, by simp [find_free], ?_,
    fun m u v e => Proceed_no_assertion alloc m u v e⟩
  intro m
  exact Proceed_dangling alloc m t _ (by simp [find_free])

theorem Proceed_FINISH_retires_witness :
    Proceed lowestFree 2 0 ⟨[(0, ⟨⟨"world"⟩, ⟨"Hello world"⟩, .FINISH⟩)], [], [], 1, 0⟩ =
      .ok ⟨[], [], [], 1, 1⟩ :=
  (Proceed_FINISH_retires lowestFree 1 0
    ⟨[(0, ⟨⟨"world"⟩, ⟨"Hello world"⟩, .FINISH⟩)], [], [], 1, 0⟩
    ⟨⟨"world"⟩, ⟨"Hello world"⟩, .FINISH⟩ rfl rfl).1

/-- C6 as stated fails: `Proceed` on an object in FINISH returns normally. In
the run of `HandleRpcs` in which one request arrives and its reply is sent,
the second event finds the object at address 0 in FINISH, and the loop
goes on to wait for the next event with that object deleted. -/
theorem Proceed_in_FINISH_returns :
    Proceed lowestFree depth 0 ⟨[(0, ⟨⟨"world"⟩, ⟨"Hello world"⟩, .FINISH⟩)], [], [], 1, 0⟩ =
      .ok ⟨[], [], [], 1, 1⟩ ∧
    (find (HandleRpcs lowestFree [.completion 0 true ⟨"world"⟩] World.empty).1.heap 0).map
      CallData.status_ = some .FINISH ∧
    (HandleRpcs lowestFree [.completion 0 true ⟨"world"⟩, .completion 0 true ⟨""⟩]
      World.empty).2 = .waiting ∧
    find (HandleRpcs lowestFree [.completion 0 true ⟨"world"⟩, .completion 0 true ⟨""⟩]
      World.empty).1.heap 0 = none :=
  ⟨rfl, by decide, by decide, by decide⟩

/-! ## The dispatch loop: theorems -/

theorem HandleRpcs_eq_loop (alloc : List Nat → Nat) (evs : List CqEvent) (w : World) :
    HandleRpcs alloc evs w = HandleRpcs.loop alloc evs (w.spawned alloc) := by
  unfold HandleRpcs
  rw [depth, CallData_new_eq alloc 1 w]

theorem entry_eq (alloc : List Nat → Nat) :
    HandleRpcs.entry alloc = World.empty.spawned alloc := by
  unfold HandleRpcs.entry
  rw [HandleRpcs_eq_loop]
  rfl

theorem loop_append (alloc : List Nat → Nat) (pre rest : List CqEvent) (w w1 : World)
    (hpre : HandleRpcs.loop alloc pre w = (w1, .waiting)) :
    HandleRpcs.loop alloc (pre ++ rest) w = HandleRpcs.loop alloc rest w1 := by
  induction pre generalizing w with
  | nil =>
    simp only [HandleRpcs.loop, Prod.mk.injEq, and_true] at hpre
    rw [List.nil_append, hpre]
  | cons ev pre ih =>
    rw [List.cons_append, HandleRpcs.loop]
    rw [HandleRpcs.loop] at hpre
    rcases hit : HandleRpcs.iteration alloc ev w with ⟨w2, _ | f⟩
    · rw [hit] at hpre
      simp only [] at hpre ⊢
      exact ih w2 hpre
    · rw [hit] at hpre
      simp at hpre

theorem cqNext_not_ok (w : World) (tag : Nat) (request : HelloRequest) :
    (cqNext w (.completion tag false request)).heap = w.heap ∧
    (cqNext w (.completion tag false request)).created = w.created ∧
    (cqNext w (.completion tag false request)).retired = w.retired := by
  unfold cqNext
  rcases h : takeOp w.pending tag with _ | ⟨op, ops⟩ <;> simp [h]

/-- C5. When the loop of `HandleRpcs` has handled the events `pre` and takes
an event with `ok = false` from the queue, `GPR_ASSERT(ok)` fails: `Proceed`
is not called, so the heap of `CallData` objects and the numbers of objects
created and retired are as before the event, and whatever events follow, none
is handled. -/
theorem HandleRpcs_asserts_ok (alloc : List Nat → Nat) (pre rest : List CqEvent)
    (tag : Nat) (request : HelloRequest) (w1 : World)
    (hpre : HandleRpcs alloc pre World.empty = (w1, .waiting)) :
    HandleRpcs alloc (pre ++ .completion tag false request :: rest) World.empty =
      (cqNext w1 (.completion tag false request), .failed (.assertion "ok")) ∧
    (cqNext w1 (.completion tag false request)).heap = w1.heap ∧
    (cqNext w1 (.completion tag false request)).created = w1.created ∧
    (cqNext w1 (.completion tag false request)).retired = w1.retired ∧
    (∀ w, HandleRpcs.iteration alloc (.completion tag false request) w =
      (cqNext w (.completion tag false request), some (.assertion "ok"))) := by
  have hit : ∀ w, HandleRpcs.iteration alloc (.completion tag false request) w =
      (cqNext w (.completion tag false request), some (.assertion "ok")) := by
    intro w
    simp [HandleRpcs.iteration]
  obtain ⟨h1, h2, h3⟩ := cqNext_not_ok w1 tag request
  refine ⟨?_, h1, h2, h3, hit⟩
  rw [HandleRpcs_eq_loop] at hpre ⊢
  rw [loop_append alloc pre _ _ w1 hpre, HandleRpcs.loop, hit w1]

theorem HandleRpcs_asserts_ok_witness :
    (HandleRpcs lowestFree
      [.completion 0 true ⟨"world"⟩, .completion 1 false ⟨"x"⟩, .completion 0 true ⟨""⟩]
      World.empty).2 = .failed (.assertion "ok") ∧
    (HandleRpcs lowestFree
      [.completion 0 true ⟨"world"⟩, .completion 1 false ⟨"x"⟩, .completion 0 true ⟨""⟩]
      World.empty).1.heap =
      (HandleRpcs lowestFree [.completion 0 true ⟨"world"⟩] World.empty).1.heap := by
  have h := HandleRpcs_asserts_ok lowestFree [.completion 0 true ⟨"world"⟩]
    [.completion 0 true ⟨""⟩] 1 ⟨"x"⟩
    (HandleRpcs lowestFree [.completion 0 true ⟨"world"⟩] World.empty).1 (by decide)
  rw [List.singleton_append] at h
  rw [h.1]
  exact ⟨rfl, h.2.1⟩

/-! ## The invariant of the dispatch loop -/

theorem takeOp_some (ops : List AsyncOp) (t : Nat) (op : AsyncOp) (rest : List AsyncOp)
    (h : takeOp ops t = some (op, rest)) : op.tag = t ∧ ops.Perm (op :: rest) := by
  induction ops generalizing op rest with
  | nil => simp [takeOp] at h
  | cons o ops ih =>
    rw [takeOp] at h
    by_cases hot : o.tag = t
    · rw [if_pos hot] at h
      simp only [Option.some.injEq, Prod.mk.injEq] at h
      obtain ⟨rfl, rfl⟩ := h
      exact ⟨hot, List.Perm.refl _⟩
    · rw [if_neg hot] at h
      rcases hr : takeOp ops t with _ | ⟨op2, rest2⟩
      · rw [hr] at h; simp at h
      · rw [hr] at h
        simp only [Option.map_some', Option.some.injEq, Prod.mk.injEq] at h
        obtain ⟨rfl, rfl⟩ := h
        obtain ⟨h1, h2⟩ := ih op2 rest2 hr
        exact ⟨h1, (List.Perm.cons o h2).trans (List.Perm.swap _ _ _)⟩

theorem takeOp_of_mem (ops : List AsyncOp) (t : Nat) (h : ∃ op ∈ ops, AsyncOp.tag op = t) :
    ∃ op rest, takeOp ops t = some (op, rest) := by
  induction ops with
  | nil => simp at h
  | cons o ops ih =>
    rw [takeOp]
    by_cases hot : o.tag = t
    · exact ⟨o, ops, by rw [if_pos hot]⟩
    · rw [if_neg hot]
      obtain ⟨op, hop, htag⟩ := h
      rcases List.mem_cons.mp hop with rfl | hmem
      · exact absurd htag hot
      · obtain ⟨op2, rest2, h2⟩ := ih ⟨op, hmem, htag⟩
        exact ⟨op2, o :: rest2, by rw [h2]; rfl⟩

theorem posts_iff (w : World) (t : Nat) (ok : Bool) (request : HelloRequest) :
    posts w (.completion t ok request) = true ↔
      ok = true ∧ ∃ op ∈ w.pending, AsyncOp.tag op = t := by
  simp [posts]

theorem Inv_entry (alloc : List Nat → Nat) : Inv (HandleRpcs.entry alloc) := by
  rw [entry_eq]
  constructor <;>
    simp [World.spawned, World.empty, addrs, modify, find, AsyncOp.tag, AsyncOp.isRequest,
      CallData.fresh]

/-- The tags of the pending operations are distinct. -/
theorem Inv.tags_nodup {w : World} (hinv : Inv w) : (w.pending.map AsyncOp.tag).Nodup :=
  (hinv.perm.nodup_iff).mpr hinv.nodup

theorem cqNext_finish (w : World) (t : Nat) (ok : Bool) (request : HelloRequest)
    (r : HelloReply) (st : Status) (tg : Nat) (rest : List AsyncOp)
    (htake : takeOp w.pending t = some (.Finish r st tg, rest)) :
    cqNext w (.completion t ok request) =
      { w with pending := rest, completed := w.completed ++ [.Finish r st tg] } := by
  simp [cqNext, htake, AsyncOp.isRequest]

theorem cqNext_request (w : World) (t : Nat) (request : HelloRequest)
    (tg : Nat) (rest : List AsyncOp)
    (htake : takeOp w.pending t = some (.RequestSayHello tg, rest)) :
    cqNext w (.completion t true request) =
      { w with
        heap := modify w.heap t (fun c => { c with request_ := request })
        pending := rest, completed := w.completed ++ [.RequestSayHello tg] } := by
  simp [cqNext, htake, AsyncOp.isRequest]

/-- The state after the completion of `Finish` for the object at `t` is handled. -/
theorem iteration_sent (alloc : List Nat → Nat) (w : World) (hinv : Inv w) (t : Nat)
    (request : HelloRequest) (r : HelloReply) (st : Status) (tg : Nat) (rest : List AsyncOp)
    (htake : takeOp w.pending t = some (.Finish r st tg, rest)) :
    HandleRpcs.iteration alloc (.completion t true request) w =
      ({ heap := free w.heap t, pending := rest,
         completed := w.completed ++ [.Finish r st tg],
         created := w.created, retired := w.retired + 1 }, none) := by
  obtain ⟨htag, hperm⟩ := takeOp_some _ _ _ _ htake
  have hmem : AsyncOp.Finish r st tg ∈ w.pending := hperm.mem_iff.mpr (List.mem_cons_self _ _)
  obtain ⟨cd, hfind, hst⟩ := hinv.status _ hmem
  simp only [AsyncOp.tag] at htag
  subst htag
  simp only [AsyncOp.tag, AsyncOp.isRequest] at hfind hst
  have hP := Proceed_FINISH alloc 1 tg
    { w with pending := rest, completed := w.completed ++ [.Finish r st tg] } cd hfind
    (by simpa using hst)
  simp only [Nat.reduceAdd] at hP
  simp only [HandleRpcs.iteration, depth]
  rw [cqNext_finish w tg true request r st tg rest htake, hP]
  simp

theorem Inv_sent (w : World) (hinv : Inv w) (t : Nat)
    (r : HelloReply) (st : Status) (tg : Nat) (rest : List AsyncOp)
    (htake : takeOp w.pending t = some (.Finish r st tg, rest)) :
    Inv { heap := free w.heap t, pending := rest,
          completed := w.completed ++ [.Finish r st tg],
          created := w.created, retired := w.retired + 1 } := by
  obtain ⟨htag, hperm⟩ := takeOp_some _ _ _ _ htake
  simp only [AsyncOp.tag] at htag
  subst htag
  have hmem : AsyncOp.Finish r st tg ∈ w.pending := hperm.mem_iff.mpr (List.mem_cons_self _ _)
  have htags : (w.pending.map AsyncOp.tag).Perm (tg :: rest.map AsyncOp.tag) := by
    simpa [AsyncOp.tag] using hperm.map AsyncOp.tag
  have hnd : (tg :: rest.map AsyncOp.tag).Nodup := (htags.nodup_iff).mp hinv.tags_nodup
  have htmem : tg ∈ addrs w.heap :=
    hinv.perm.mem_iff.mp (htags.mem_iff.mpr (List.mem_cons_self _ _))
  have hfilter : (addrs w.heap).filter (fun a => decide (a ≠ tg)) = (addrs w.heap).erase tg := by
    rw [hinv.nodup.erase_eq_filter tg]
    apply List.filter_congr
    intro x _
    by_cases hx : x = tg <;> simp [hx]
  constructor
  · simp only []
    rw [addrs_free]
    exact hinv.nodup.filter _
  · simp only []
    rw [addrs_free, hfilter]
    have h1 : (tg :: rest.map AsyncOp.tag).Perm (tg :: (addrs w.heap).erase tg) :=
      (htags.symm.trans hinv.perm).trans (List.perm_cons_erase htmem)
    exact h1.cons_inv
  · intro op hop
    simp only [] at hop ⊢
    have hne : op.tag ≠ tg := by
      intro e
      have := (List.nodup_cons.mp hnd).1
      exact this (e ▸ List.mem_map_of_mem AsyncOp.tag hop)
    obtain ⟨cd, hfind, hst⟩ := hinv.status op (hperm.mem_iff.mpr (List.mem_cons_of_mem _ hop))
    exact ⟨cd, by rw [find_free, if_neg hne]; exact hfind, hst⟩
  · simp only []
    have := (hperm.filter AsyncOp.isRequest).length_eq
    rw [hinv.one] at this
    simpa [List.filter_cons, AsyncOp.isRequest] using this.symm
  · simp only []
    have := hperm.length_eq
    have h2 := hinv.live
    simp only [List.length_cons] at this
    omega
  · simp only []
    rw [hinv.arrived]
    simp [List.filter_append, AsyncOp.isRequest]
  · simp only []
    rw [hinv.sent]
    simp [List.filter_append, AsyncOp.isRequest]

/-- The step of the loop for the arrival of a request at the object `t`: the
loop goes on, the invariant holds again, the object at `t` is in FINISH with
its reply, and a new object waits for the next request. -/
theorem iteration_arrival (alloc : List Nat → Nat) (hfresh : Fresh alloc) (w : World)
    (hinv : Inv w) (t : Nat) (request : HelloRequest) (tg : Nat) (rest : List AsyncOp)
    (htake : takeOp w.pending t = some (.RequestSayHello tg, rest)) :
    ∃ w2 cd, HandleRpcs.iteration alloc (.completion t true request) w = (w2, none) ∧
      Inv w2 ∧ find w.heap t = some cd ∧
      find w2.heap t = some { request_ := request, reply_ := ⟨"Hello " ++ request.name⟩,
                              status_ := .FINISH } ∧
      w2.pending = rest ++ [.RequestSayHello (alloc (addrs w.heap)),
        .Finish ⟨"Hello " ++ request.name⟩ Status.OK t] ∧
      alloc (addrs w.heap) ≠ t := by
  obtain ⟨htag, hperm⟩ := takeOp_some _ _ _ _ htake
  simp only [AsyncOp.tag] at htag
  subst htag
  have hmem : AsyncOp.RequestSayHello tg ∈ w.pending :=
    hperm.mem_iff.mpr (List.mem_cons_self _ _)
  obtain ⟨cd, hfind, hst⟩ := hinv.status _ hmem
  simp only [AsyncOp.tag, AsyncOp.isRequest, if_true] at hfind hst
  have htags : (w.pending.map AsyncOp.tag).Perm (tg :: rest.map AsyncOp.tag) := by
    simpa [AsyncOp.tag] using hperm.map AsyncOp.tag
  have hnd : (tg :: rest.map AsyncOp.tag).Nodup := (htags.nodup_iff).mp hinv.tags_nodup
  have htmem : tg ∈ addrs w.heap := mem_addrs_of_find _ _ _ hfind
  have hp : alloc (addrs w.heap) ≠ tg := fun e => hfresh (addrs w.heap) (e ▸ htmem)
  -- the state that `Proceed` starts from
  have hfind1 : find (modify w.heap tg (fun c => { c with request_ := request })) tg =
      some { cd with request_ := request } := by
    rw [find_modify, if_pos rfl, hfind]; rfl
  have hP := Proceed_PROCESS alloc 0 tg
    { w with
      heap := modify w.heap tg (fun c => { c with request_ := request })
      pending := rest, completed := w.completed ++ [.RequestSayHello tg] }
    { cd with request_ := request } hfind1 hst
  simp only [Nat.reduceAdd, Nat.zero_add] at hP
  have hfindall : ∀ u, find (modify (modify ((World.spawned alloc
      { w with
        heap := modify w.heap tg (fun c => { c with request_ := request })
        pending := rest, completed := w.completed ++ [.RequestSayHello tg] }).heap) tg
        (fun c => { c with reply_ := CallData.answer { cd with request_ := request } }))
        tg (fun c => { c with status_ := .FINISH })) u =
      if u = tg then some { request_ := request, reply_ := ⟨"Hello " ++ request.name⟩,
                            status_ := .FINISH }
      else if u = alloc (addrs w.heap) then some CallData.fresh
      else find w.heap u := by
    intro u
    rw [find_after_PROCESS alloc hfresh tg _ _ hfind1]
    simp only [addrs_modify, find_modify]
    by_cases hut : u = tg
    · simp [hut, CallData.answer]
    · simp [hut]
  rcases hres : Proceed alloc 2 tg
    { w with
      heap := modify w.heap tg (fun c => { c with request_ := request })
      pending := rest, completed := w.completed ++ [.RequestSayHello tg] } with f | w2
  · rw [hP] at hres; cases hres
  have hw2 := Except.ok.inj (hP.symm.trans hres)
  refine ⟨w2, cd, ?_, ?_, hfind, ?_, ?_, hp⟩
  · simp only [HandleRpcs.iteration, depth]
    rw [cqNext_request w tg request tg rest htake, hres]
    simp
  · subst hw2
    constructor
    · simp only [addrs_modify]
      rw [spawned_heap alloc hfresh]
      simp only [addrs_cons, addrs_modify]
      exact List.nodup_cons.mpr ⟨hfresh _, hinv.nodup⟩
    · simp only [addrs_modify]
      rw [spawned_heap alloc hfresh]
      simp only [addrs_cons, addrs_modify, World.spawned, List.map_append, List.map_cons,
        List.map_nil, AsyncOp.tag]
      have h1 : (rest.map AsyncOp.tag ++ [alloc (addrs w.heap)] ++ [tg]).Perm
          (alloc (addrs w.heap) :: tg :: rest.map AsyncOp.tag) := by
        rw [List.append_assoc]
        refine List.perm_append_comm.trans ?_
        simp
      exact h1.trans (List.Perm.cons _ (htags.symm.trans hinv.perm))
    · intro op hop
      simp only [] at hop ⊢
      rw [hfindall]
      simp only [World.spawned, List.mem_append, List.mem_singleton, addrs_modify] at hop
      rcases hop with (hop | rfl) | rfl
      · have hne : op.tag ≠ tg := by
          intro e
          exact (List.nodup_cons.mp hnd).1 (e ▸ List.mem_map_of_mem AsyncOp.tag hop)
        have hopmem : op ∈ w.pending := hperm.mem_iff.mpr (List.mem_cons_of_mem _ hop)
        obtain ⟨cd2, hfind2, hst2⟩ := hinv.status op hopmem
        have hne2 : op.tag ≠ alloc (addrs w.heap) := by
          intro e
          exact hfresh (addrs w.heap) (e ▸ mem_addrs_of_find _ _ _ hfind2)
        exact ⟨cd2, by rw [if_neg hne, if_neg hne2]; exact hfind2, hst2⟩
      · exact ⟨CallData.fresh, by simp [AsyncOp.tag, hp], by simp [AsyncOp.isRequest, CallData.fresh]⟩
      · exact ⟨{ request_ := request, reply_ := ⟨"Hello " ++ request.name⟩, status_ := .FINISH },
          by simp [AsyncOp.tag], by simp [AsyncOp.isRequest]⟩
    · simp only [World.spawned]
      have := (hperm.filter AsyncOp.isRequest).length_eq
      rw [hinv.one] at this
      simp only [List.filter_cons, AsyncOp.isRequest, if_true, List.length_cons] at this
      simp only [List.filter_append, List.filter_cons, AsyncOp.isRequest, List.length_append,
        List.length_cons, List.filter_nil, List.length_nil, if_true, Bool.false_eq_true,
        if_false]
      omega
    · simp only [World.spawned]
      have := hperm.length_eq
      have h2 := hinv.live
      simp only [List.length_cons] at this
      simp only [List.length_append, List.length_cons, List.length_nil]
      omega
    · simp only [World.spawned]
      rw [hinv.arrived]
      simp [List.filter_append, AsyncOp.isRequest]
      omega
    · simp only [World.spawned]
      rw [hinv.sent]
      simp [List.filter_append, AsyncOp.isRequest]
  · subst hw2
    simp only []
    rw [hfindall, if_pos rfl]
  · subst hw2
    simp [World.spawned, addrs_modify, CallData.answer]

/-- An event that the runtime may post is handled without failure and keeps
the invariant. -/
theorem Inv_iteration (alloc : List Nat → Nat) (hfresh : Fresh alloc) (w : World)
    (hinv : Inv w) (ev : CqEvent) (hposts : posts w ev = true) :
    ∃ w2, HandleRpcs.iteration alloc ev w = (w2, none) ∧ Inv w2 := by
  cases ev with
  | shutdown => simp [posts] at hposts
  | completion t ok request =>
    obtain ⟨hok, hex⟩ := (posts_iff w t ok request).mp hposts
    subst hok
    obtain ⟨op, rest, htake⟩ := takeOp_of_mem w.pending t hex
    cases op with
    | RequestSayHello tg =>
      obtain ⟨w2, _, h1, h2, _⟩ := iteration_arrival alloc hfresh w hinv t request tg rest htake
      exact ⟨w2, h1, h2⟩
    | Finish r st tg =>
      exact ⟨_, iteration_sent alloc w hinv t request r st tg rest htake,
        Inv_sent w hinv t r st tg rest htake⟩

/-- On a trace of events that the runtime may post, the loop handles every
event, ends waiting for the next, and the invariant holds. -/
theorem Inv_loop (alloc : List Nat → Nat) (hfresh : Fresh alloc) (evs : List CqEvent)
    (w : World) (hinv : Inv w) (hrt : runtimeTrace alloc evs w = true) :
    ∃ w2, HandleRpcs.loop alloc evs w = (w2, .waiting) ∧ Inv w2 := by
  induction evs generalizing w with
  | nil => exact ⟨w, rfl, hinv⟩
  | cons ev evs ih =>
    rw [runtimeTrace, Bool.and_eq_true] at hrt
    obtain ⟨w2, hit, hinv2⟩ := Inv_iteration alloc hfresh w hinv ev hrt.1
    have hrt2 := hrt.2
    rw [hit] at hrt2
    obtain ⟨w3, hloop, hinv3⟩ := ih w2 hinv2 hrt2
    exact ⟨w3, by rw [HandleRpcs.loop, hit]; exact hloop, hinv3⟩

/-- The states that `HandleRpcs` reaches from the empty state satisfy the invariant. -/
theorem Inv_HandleRpcs (alloc : List Nat → Nat) (hfresh : Fresh alloc) (evs : List CqEvent)
    (hrt : runtimeTrace alloc evs (HandleRpcs.entry alloc) = true) :
    ∃ w, HandleRpcs alloc evs World.empty = (w, .waiting) ∧ Inv w := by
  rw [HandleRpcs_eq_loop, ← entry_eq]
  exact Inv_loop alloc hfresh evs _ (Inv_entry alloc) hrt

theorem find_of_mem (h : Heap) (hnd : (addrs h).Nodup) (a : Nat) (cd : CallData)
    (hmem : (a, cd) ∈ h) : find h a = some cd := by
  induction h with
  | nil => simp at hmem
  | cons e h ih =>
    obtain ⟨b, cd2⟩ := e
    rw [addrs_cons, List.nodup_cons] at hnd
    rw [find_cons]
    rcases List.mem_cons.mp hmem with heq | hin
    · simp only [Prod.mk.injEq] at heq
      obtain ⟨rfl, rfl⟩ := heq
      simp
    · have hne : ¬ b = a := by
        intro e
        subst e
        exact hnd.1 (List.mem_map_of_mem Prod.fst hin)
      rw [if_neg hne]
      exact ih hnd.2 hin

/-- A live object has a pending operation, which tells its state. -/
theorem Inv.op_of_live {w : World} (hinv : Inv w) (a : Nat) (cd : CallData)
    (hmem : (a, cd) ∈ w.heap) :
    ∃ op ∈ w.pending, AsyncOp.tag op = a ∧
      cd.status_ = if op.isRequest then CallStatus.PROCESS else CallStatus.FINISH := by
  have ha : a ∈ addrs w.heap := List.mem_map_of_mem Prod.fst hmem
  obtain ⟨op, hop, htag⟩ := List.mem_map.mp (hinv.perm.mem_iff.mpr ha)
  obtain ⟨cd2, hfind, hst⟩ := hinv.status op hop
  rw [htag, find_of_mem w.heap hinv.nodup a cd hmem] at hfind
  cases hfind
  exact ⟨op, hop, htag, hst⟩

theorem Inv.no_CREATE {w : World} (hinv : Inv w) (e : Nat × CallData) (hmem : e ∈ w.heap) :
    e.2.status_ ≠ .CREATE := by
  obtain ⟨op, _, _, hst⟩ := hinv.op_of_live e.1 e.2 hmem
  rw [hst]
  cases op.isRequest <;> simp

/-- Exactly one live object is in PROCESS. -/
theorem Inv.one_in_PROCESS {w : World} (hinv : Inv w) :
    (w.heap.filter (fun e => decide (e.2.status_ = .PROCESS))).length = 1 := by
  have h1 : w.heap.countP (fun e => decide (e.2.status_ = .PROCESS)) =
      w.heap.countP ((fun a => decide ((find w.heap a).map CallData.status_ = some .PROCESS)) ∘
        Prod.fst) := by
    apply List.countP_congr
    intro e he
    rw [Function.comp_apply, find_of_mem w.heap hinv.nodup e.1 e.2 he]
    simp
  have h2 : w.pending.countP ((fun a => decide ((find w.heap a).map CallData.status_ =
      some .PROCESS)) ∘ AsyncOp.tag) = w.pending.countP AsyncOp.isRequest := by
    apply List.countP_congr
    intro op hop
    obtain ⟨cd, hfind, hst⟩ := hinv.status op hop
    rw [Function.comp_apply, hfind]
    cases hreq : op.isRequest <;> simp [hreq] at hst ⊢ <;> simp [hst]
  rw [← List.countP_eq_length_filter, h1, ← List.countP_map]
  have h3 := hinv.perm.countP_eq
    (fun a => decide ((find w.heap a).map CallData.status_ = some .PROCESS))
  unfold addrs at h3
  rw [← h3, List.countP_map, h2, List.countP_eq_length_filter]
  exact hinv.one

/-- C7. Let `HandleRpcs` start from the empty state and let the queue deliver
successful completions of pending operations, in any order the runtime can
produce. When the delivered completions are those of `N` requests (`N`
arrivals and `N` replies sent), the loop is waiting for the next event,
`N + 1` objects have been created, `N` have been deleted, and exactly one is
live: it waits for the next request. -/
theorem HandleRpcs_creates_N_plus_one (alloc : List Nat → Nat) (hfresh : Fresh alloc)
    (evs : List CqEvent) (N : Nat)
    (hrt : runtimeTrace alloc evs (HandleRpcs.entry alloc) = true)
    (harr : ((HandleRpcs alloc evs World.empty).1.completed.filter
      AsyncOp.isRequest).length = N)
    (hsent : ((HandleRpcs alloc evs World.empty).1.completed.filter
      (fun op => !op.isRequest)).length = N) :
    ∃ w p cd, HandleRpcs alloc evs World.empty = (w, .waiting) ∧
      w.created = N + 1 ∧ w.retired = N ∧ w.heap = [(p, cd)] ∧
      cd.status_ = .PROCESS ∧ w.pending = [.RequestSayHello p] := by
  obtain ⟨w, hrun, hinv⟩ := Inv_HandleRpcs alloc hfresh evs hrt
  rw [hrun] at harr hsent
  simp only [] at harr hsent
  have hcreated : w.created = N + 1 := by rw [hinv.arrived, harr]; omega
  have hretired : w.retired = N := by rw [hinv.sent, hsent]
  have hlen : w.pending.length = 1 := by
    have := hinv.live
    omega
  have hheap : w.heap.length = 1 := by
    have := hinv.perm.length_eq
    simp only [addrs, List.length_map] at this
    omega
  obtain ⟨op, hop⟩ := List.length_eq_one.mp hlen
  obtain ⟨⟨p, cd⟩, hpc⟩ := List.length_eq_one.mp hheap
  have hone := hinv.one
  have hperm := hinv.perm
  obtain ⟨cd2, hfind, hst⟩ := hinv.status op (by rw [hop]; simp)
  rw [hop] at hone hperm
  rw [hpc] at hperm hfind
  have htag : op.tag = p := by
    simpa [addrs] using hperm
  have hreq : op.isRequest = true := by
    by_contra hn
    simp [List.filter_cons, hn] at hone
  rw [htag, find_cons, if_pos rfl] at hfind
  cases hfind
  rw [hreq, if_pos rfl] at hst
  refine ⟨w, p, cd, hrun, hcreated, hretired, hpc, hst, ?_⟩
  rw [hop]
  cases op with
  | RequestSayHello q => simp only [AsyncOp.tag] at htag; rw [htag]
  | Finish r s q => simp [AsyncOp.isRequest] at hreq

theorem HandleRpcs_creates_N_plus_one_witness :
    ∃ w p cd, HandleRpcs lowestFree
        [.completion 0 true ⟨"a"⟩, .completion 1 true ⟨"b"⟩, .completion 2 true ⟨"c"⟩,
         .completion 1 true ⟨""⟩, .completion 0 true ⟨""⟩, .completion 2 true ⟨""⟩]
        World.empty = (w, .waiting) ∧
      w.created = 3 + 1 ∧ w.retired = 3 ∧ w.heap = [(p, cd)] ∧
      cd.status_ = .PROCESS ∧ w.pending = [.RequestSayHello p] :=
  HandleRpcs_creates_N_plus_one lowestFree lowestFree_fresh
    [.completion 0 true ⟨"a"⟩, .completion 1 true ⟨"b"⟩, .completion 2 true ⟨"c"⟩,
     .completion 1 true ⟨""⟩, .completion 0 true ⟨""⟩, .completion 2 true ⟨""⟩]
    3 (by decide) (by decide) (by decide)

theorem others_PROCESS_of_FINISH {w : World} (hinv : Inv w) (t : Nat) (cd : CallData)
    (hfind : find w.heap t = some cd) (hst : cd.status_ = .FINISH) :
    others w t .PROCESS = w.heap.filter (fun e => decide (e.2.status_ = .PROCESS)) := by
  unfold others
  apply List.filter_congr
  intro e he
  by_cases hs : e.2.status_ = .PROCESS
  · have hne : e.1 ≠ t := by
      intro heq
      have := find_of_mem w.heap hinv.nodup e.1 e.2 he
      rw [heq, hfind] at this
      cases this
      rw [hst] at hs
      cases hs
    simp [hs, hne]
  · simp [hs]

/-- C8, as the code has it. In every state the dispatch loop reaches, no live
`CallData` has `status_` CREATE: the constructor has already moved it to
PROCESS when it subscribed. Immediately after an Invocation is given its
request (the PROCESS branch of `Proceed`, which leaves it in FINISH), exactly
one other Invocation exists with `status_` PROCESS, and it is subscribed to
the method: its `RequestSayHello` is pending. -/
theorem successor_is_subscribed_in_PROCESS (alloc : List Nat → Nat) (hfresh : Fresh alloc)
    (evs : List CqEvent) (t : Nat) (request : HelloRequest)
    (hrt : runtimeTrace alloc evs (HandleRpcs.entry alloc) = true)
    (harr : AsyncOp.RequestSayHello t ∈ (HandleRpcs alloc evs World.empty).1.pending) :
    ∃ w2 p cd, HandleRpcs alloc (evs ++ [.completion t true request]) World.empty =
        (w2, .waiting) ∧
      (find w2.heap t).map CallData.status_ = some .FINISH ∧
      others w2 t .PROCESS = [(p, cd)] ∧ p ≠ t ∧ AsyncOp.RequestSayHello p ∈ w2.pending ∧
      others w2 t .CREATE = [] ∧ (∀ e ∈ w2.heap, e.2.status_ ≠ .CREATE) := by
  obtain ⟨w, hrun, hinv⟩ := Inv_HandleRpcs alloc hfresh evs hrt
  rw [hrun] at harr
  simp only [] at harr
  obtain ⟨op, rest, htake⟩ := takeOp_of_mem w.pending t ⟨_, harr, rfl⟩
  obtain ⟨htag, hperm⟩ := takeOp_some _ _ _ _ htake
  have hopmem : op ∈ w.pending := hperm.mem_iff.mpr (List.mem_cons_self _ _)
  have hop : op = .RequestSayHello t :=
    List.inj_on_of_nodup_map hinv.tags_nodup hopmem harr (by rw [htag]; rfl)
  subst hop
  obtain ⟨w2, cd0, hit, hinv2, _, hfind2, _, _⟩ :=
    iteration_arrival alloc hfresh w hinv t request t rest htake
  have hrun2 : HandleRpcs alloc (evs ++ [.completion t true request]) World.empty =
      (w2, .waiting) := by
    rw [HandleRpcs_eq_loop] at hrun ⊢
    rw [loop_append alloc evs _ _ w hrun, HandleRpcs.loop, hit]
    rfl
  have hoth := others_PROCESS_of_FINISH hinv2 t _ hfind2 rfl
  have hlen : (others w2 t .PROCESS).length = 1 := by rw [hoth]; exact hinv2.one_in_PROCESS
  obtain ⟨⟨p, cd⟩, hpc⟩ := List.length_eq_one.mp hlen
  have hmem : (p, cd) ∈ others w2 t .PROCESS := by rw [hpc]; simp
  unfold others at hmem
  rw [List.mem_filter] at hmem
  obtain ⟨hin, hpred⟩ := hmem
  simp only [Bool.and_eq_true, decide_eq_true_eq] at hpred
  obtain ⟨op2, hop2, htag2, hst2⟩ := hinv2.op_of_live p cd hin
  have hsub : AsyncOp.RequestSayHello p ∈ w2.pending := by
    cases op2 with
    | RequestSayHello q => simp only [AsyncOp.tag] at htag2; rw [← htag2]; exact hop2
    | Finish r s q =>
      rw [hpred.2] at hst2
      simp [AsyncOp.isRequest] at hst2
  refine ⟨w2, p, cd, hrun2, by rw [hfind2]; rfl, hpc, hpred.1, hsub, ?_,
    fun e he => hinv2.no_CREATE e he⟩
  unfold others
  rw [List.filter_eq_nil_iff]
  intro e he
  have := hinv2.no_CREATE e he
  simp [this]

theorem successor_is_subscribed_in_PROCESS_witness :
    ∃ w2 p cd, HandleRpcs lowestFree
        ([.completion 0 true ⟨"a"⟩] ++ [.completion 1 true ⟨"world"⟩]) World.empty =
        (w2, .waiting) ∧
      (find w2.heap 1).map CallData.status_ = some .FINISH ∧
      others w2 1 .PROCESS = [(p, cd)] ∧ p ≠ 1 ∧ AsyncOp.RequestSayHello p ∈ w2.pending ∧
      others w2 1 .CREATE = [] ∧ (∀ e ∈ w2.heap, e.2.status_ ≠ .CREATE) :=
  successor_is_subscribed_in_PROCESS lowestFree lowestFree_fresh
    [.completion 0 true ⟨"a"⟩] 1 ⟨"world"⟩ (by decide) (by decide)

/-- C8 as stated fails. When `HandleRpcs` enters its loop, the object at
address 0 has entered PROCESS and no other object exists; after the first
request has arrived, the object at 0 is being served and the only other
object is in PROCESS, not in CREATE. In neither state is there exactly one
other Invocation in state CREATE. -/
theorem no_successor_in_CREATE :
    (find (HandleRpcs.entry lowestFree).heap 0).map CallData.status_ = some .PROCESS ∧
    ¬ (others (HandleRpcs.entry lowestFree) 0 .CREATE).length = 1 ∧
    (HandleRpcs lowestFree [.completion 0 true ⟨"world"⟩] World.empty).1.heap =
      [(1, ⟨⟨""⟩, ⟨""⟩, .PROCESS⟩), (0, ⟨⟨"world"⟩, ⟨"Hello world"⟩, .FINISH⟩)] ∧
    ¬ (others (HandleRpcs lowestFree [.completion 0 true ⟨"world"⟩] World.empty).1 0
      .CREATE).length = 1 := by
  decide

theorem opsOf_length (ops : List AsyncOp) (t : Nat) :
    (opsOf ops t).length = (ops.map AsyncOp.tag).count t := by
  unfold opsOf
  rw [← List.countP_eq_length_filter, List.count, List.countP_map]
  apply List.countP_congr
  intro op _
  by_cases h : op.tag = t <;> simp [h]

theorem opsOf_eq_nil (ops : List AsyncOp) (t : Nat) (h : t ∉ ops.map AsyncOp.tag) :
    opsOf ops t = [] := by
  unfold opsOf
  rw [List.filter_eq_nil_iff]
  intro op hop
  have : op.tag ≠ t := fun e => h (e ▸ List.mem_map_of_mem AsyncOp.tag hop)
  simpa using this

theorem cqNext_pending (w : World) (t : Nat) (ok : Bool) (request : HelloRequest)
    (op : AsyncOp) (rest : List AsyncOp) (htake : takeOp w.pending t = some (op, rest)) :
    (cqNext w (.completion t ok request)).pending = rest := by
  cases op with
  | RequestSayHello tg =>
    cases ok with
    | true => rw [cqNext_request w t request tg rest htake]
    | false => simp [cqNext, htake, AsyncOp.isRequest]
  | Finish r st tg => rw [cqNext_finish w t ok request r st tg rest htake]

/-- C10. In every state that `HandleRpcs` reaches on completions the runtime
posts for pending operations, every tag has at most one pending operation and
every live `CallData` has exactly one; the completion that the loop takes for
an object is that of its one pending operation, after which none is pending
for it; and a call of `Proceed` on a live object returns having handed the
runtime, under the tag of that object, one `RequestSayHello` in CREATE, one
`Finish` in PROCESS, and nothing in FINISH. -/
theorem one_pending_operation (alloc : List Nat → Nat) (hfresh : Fresh alloc)
    (evs : List CqEvent)
    (hrt : runtimeTrace alloc evs (HandleRpcs.entry alloc) = true) :
    (∃ w, HandleRpcs alloc evs World.empty = (w, .waiting) ∧
      (∀ t, (opsOf w.pending t).length ≤ 1) ∧
      (∀ t ∈ addrs w.heap, (opsOf w.pending t).length = 1) ∧
      (∀ t request, posts w (.completion t true request) = true →
        opsOf (cqNext w (.completion t true request)).pending t = [])) ∧
    (∀ (n t : Nat) (v : World) (cd : CallData), find v.heap t = some cd →
      ∃ v2 issued, Proceed alloc (n + 2) t v = .ok v2 ∧ v2.pending = v.pending ++ issued ∧
        opsOf issued t =
          match cd.status_ with
          | .CREATE => [.RequestSayHello t]
          | .PROCESS => [.Finish ⟨"Hello " ++ cd.request_.name⟩ Status.OK t]
          | .FINISH => []) := by
  constructor
  · obtain ⟨w, hrun, hinv⟩ := Inv_HandleRpcs alloc hfresh evs hrt
    refine ⟨w, hrun, ?_, ?_, ?_⟩
    · intro t
      rw [opsOf_length]
      exact List.nodup_iff_count_le_one.mp hinv.tags_nodup t
    · intro t ht
      rw [opsOf_length]
      exact List.count_eq_one_of_mem hinv.tags_nodup (hinv.perm.mem_iff.mpr ht)
    · intro t request hposts
      obtain ⟨_, hex⟩ := (posts_iff w t true request).mp hposts
      obtain ⟨op, rest, htake⟩ := takeOp_of_mem w.pending t hex
      obtain ⟨htag, hperm⟩ := takeOp_some _ _ _ _ htake
      rw [cqNext_pending w t true request op rest htake]
      have hnd : (op.tag :: rest.map AsyncOp.tag).Nodup := by
        have := (hperm.map AsyncOp.tag).nodup_iff.mp hinv.tags_nodup
        simpa using this
      rw [htag] at hnd
      exact opsOf_eq_nil rest t (List.nodup_cons.mp hnd).1
  · intro n t v cd hfind
    cases hs : cd.status_ with
    | CREATE =>
      refine ⟨_, [.RequestSayHello t], Proceed_CREATE alloc (n + 1) t v cd hfind hs, rfl, ?_⟩
      simp [opsOf, AsyncOp.tag]
    | PROCESS =>
      have hp : alloc (addrs v.heap) ≠ t := fun e =>
        hfresh (addrs v.heap) (e ▸ mem_addrs_of_find _ _ _ hfind)
      refine ⟨_, [.RequestSayHello (alloc (addrs v.heap)),
        .Finish ⟨"Hello " ++ cd.request_.name⟩ Status.OK t],
        Proceed_PROCESS alloc n t v cd hfind hs, ?_, ?_⟩
      · simp [World.spawned, CallData.answer]
      · simp [opsOf, AsyncOp.tag, hp, List.filter_cons]
    | FINISH =>
      refine ⟨_, [], Proceed_FINISH alloc (n + 1) t v cd hfind hs, ?_, ?_⟩
      · simp
      · simp [opsOf]

theorem one_pending_operation_witness :
    ∃ w, HandleRpcs lowestFree
        [.completion 0 true ⟨"a"⟩, .completion 1 true ⟨"b"⟩, .completion 0 true ⟨""⟩]
        World.empty = (w, .waiting) ∧
      (∀ t, (opsOf w.pending t).length ≤ 1) ∧
      (∀ t ∈ addrs w.heap, (opsOf w.pending t).length = 1) :=
  have h := one_pending_operation lowestFree lowestFree_fresh
    [.completion 0 true ⟨"a"⟩, .completion 1 true ⟨"b"⟩, .completion 0 true ⟨""⟩] (by decide)
  h.1.imp (fun _ hw => ⟨hw.1, hw.2.1, hw.2.2.1⟩)

end HelloworldUds
